import Mathlib

/-!
Verification development for the databend query-execution core.

Shallow embedding of:
* `src/query/src/storages/fuse/operations/read.rs` (`FuseTable::do_read`):
  push-down projection defaulting, partition enumeration, per-partition
  fetch+decode, error wrapping, and the stream handed to the consumer.
* `src/common/meta/types/src/user_grant.rs` (`UserGrantSet::revoke_privileges`).
* The partial-aggregation transform, whose implementation is not part of the
  source fragment (only its test
  `src/fusequery/query/src/pipelines/transforms/transform_aggregator_partial_test.rs`
  is); it is modelled from the spec where marked.
-/

namespace Databend

/-- A decoded columnar batch (`DataBlock`). Its contents are irrelevant to the
scanning claims, so it is kept opaque up to an identifier. -/
structure DataBlock where
  id : Nat
deriving DecidableEq

/-- Error values (`common_exception::ErrorCode`). `do_read` only ever builds
`ErrorCode::ParquetError(msg)`; other variants may arrive from the collaborators
(`PartInfo::decode`). -/
inductive ErrorCode where
  | parquetError : String → ErrorCode
  | other : String → ErrorCode
deriving DecidableEq

/-- Decoded partition info (`super::part_info::PartInfo`): a storage location
and a byte length, as used by `do_read` (`part_info.location()`,
`part_info.length()`). -/
structure PartInfo where
  location : String
  length : Nat
deriving DecidableEq

/-- A partition work item as it leaves the catalog: `do_read` only consumes its
`name` field (`PartInfo::decode(&part.name)`). -/
structure Part where
  name : String
deriving DecidableEq

/-- Result of one `try_get_partitions` call: either an error or a group of
partitions. -/
inductive CatalogResult where
  | err : CatalogResult
  | ok : List Part → CatalogResult
deriving DecidableEq

/-- The settings consulted by `do_read`:
`get_parallel_read_threads` and `get_storage_read_buffer_size`. -/
structure Settings where
  parallel_read_threads : Nat
  storage_read_buffer_size : Nat
deriving DecidableEq

/-- The ambient `QueryContext` together with the external collaborators used by
`do_read`.  `try_get_partitions` is stateful in the source (each call returns
the next group); it is modelled as a function of the requested batch size and
of the call index.  `decodePart` models `PartInfo::decode` on `part.name`;
`readSource` models `ParquetSource::read` (fetch + decode of one partition),
returning either an error message, or no block ("absent"), or a block. -/
structure QueryContext where
  settings : Settings
  try_get_partitions : Nat → Nat → CatalogResult
  decodePart : String → Except ErrorCode PartInfo
  readSource : PartInfo → Except String (Option DataBlock)

/-- The push-down descriptor `common_planners::Extras`, restricted to the field
`do_read` reads: an optional projection (ordered field indices). -/
structure Extras where
  projection : Option (List Nat)
deriving DecidableEq

/-- A fuse table: only the schema's field list matters to `do_read`'s
projection default (`self.table_info.schema().fields().len()`). -/
structure FuseTable where
  schema_fields : List String
deriving DecidableEq

/-- Partition enumeration, embedding the iterator of `do_read` (read.rs:53-61):
`std::iter::from_fn(move || match ctx.try_get_partitions(bite_size) \x7b
  Err(_) => None, Ok(parts) if parts.is_empty() => None, Ok(parts) => Some(parts) \x7d).flatten()`.
The iterator is potentially unbounded, so the embedding is fuel-indexed; `i` is
the index of the next `try_get_partitions` call. -/
def enumeratePartitions (ctx : QueryContext) (biteSize : Nat) : Nat → Nat → List Part
  | 0, _ => []
  | fuel + 1, i =>
    match ctx.try_get_partitions biteSize i with
    | .err => []
    | .ok [] => []
    | .ok parts => parts ++ enumeratePartitions ctx biteSize fuel (i + 1)

/-- Per-partition processing, embedding the async block of `do_read`
(read.rs:74-103): decode the part name into a `PartInfo`, read the block
through `ParquetSource`, wrap a read error into
`ParquetError("fail to read block \x7bloc\x7d, \x7be\x7d")`, and turn an absent block into
`ParquetError("reader returns None for block \x7bloc\x7d")`. -/
def processPart (ctx : QueryContext) (part : Part) : Except ErrorCode DataBlock :=
  match ctx.decodePart part.name with
  | .error e => .error e
  | .ok part_info =>
    let part_location := part_info.location
    match ctx.readSource part_info with
    | .error e =>
      .error (.parquetError ("fail to read block " ++ part_location ++ ", " ++ e))
    | .ok none =>
      .error (.parquetError ("reader returns None for block " ++ part_location))
    | .ok (some block) => .ok block

/-- What `do_read` assembles: the projection passed to every `ParquetSource`,
the batch size passed to each `try_get_partitions` call, the bound passed to
`buffer_unordered`, the flattened partition list, and the element produced for
each partition of the output stream. -/
structure ScanOutput where
  projection : List Nat
  request_size : Nat
  concurrency : Nat
  parts : List Part
  stream : List (Except ErrorCode DataBlock)

/-- Embedding of `FuseTable::do_read` (read.rs:34-108).  The projection is the
push-down projection when present, else `(0..fields.len()).collect()`;
`bite_size = get_parallel_read_threads()` is used both as the
`try_get_partitions` batch size and as the `buffer_unordered` bound; the stream
has one element per enumerated partition. -/
def do_read (table : FuseTable) (ctx : QueryContext) (push_downs : Option Extras)
    (fuel : Nat) : ScanOutput :=
  let projection :=
    match push_downs with
    | some { projection := some prj } => prj
    | _ => List.range table.schema_fields.length
  let bite_size := ctx.settings.parallel_read_threads
  let parts := enumeratePartitions ctx bite_size fuel 0
  { projection := projection
    request_size := bite_size
    concurrency := bite_size
    parts := parts
    stream := parts.map (processPart ctx) }

/-- Consumer semantics of the returned `SendableDataBlockStream` under
`TryStreamExt::try_collect`: elements are pulled in order; the first error
element terminates the stream for its consumer and becomes the overall result,
and no element after it is delivered. -/
def tryCollect : List (Except ErrorCode DataBlock) → Except ErrorCode (List DataBlock)
  | [] => .ok []
  | .error e :: _ => .error e
  | .ok b :: rest => Except.map (fun l => b :: l) (tryCollect rest)

/-- The object a privilege is granted on (`GrantObject`,
user_grant.rs:24-28). -/
inductive GrantObject where
  | global : GrantObject
  | database : String → GrantObject
  | table : String → String → GrantObject
deriving DecidableEq

/-- One grant entry (`GrantEntry`, user_grant.rs:69-74).  The privilege set
`BitFlags<UserPrivilegeType>` is a machine-word bitset; it is embedded as a
natural number holding the same bits, with `|`/`^` as `Nat.lor`/`Nat.xor` and
the empty set as `0`. -/
structure GrantEntry where
  user : String
  host_pattern : String
  object : GrantObject
  privileges : Nat
deriving DecidableEq

/-- Embedding of `GrantEntry::matches_entry` (user_grant.rs:155-157). -/
def GrantEntry.matches_entry (e : GrantEntry) (user host_pattern : String)
    (object : GrantObject) : Bool :=
  e.user == user && e.host_pattern == host_pattern && e.object == object

/-- The per-entry step of `UserGrantSet::revoke_privileges`
(user_grant.rs:287-295): a matching entry gets its privileges XOR-ed with the
revoked set, a non-matching entry is cloned unchanged. -/
def revokeStep (user host_pattern : String) (object : GrantObject)
    (privileges : Nat) (e : GrantEntry) : GrantEntry :=
  if e.matches_entry user host_pattern object then
    { e with privileges := e.privileges ^^^ privileges }
  else
    e

/-- Embedding of `UserGrantSet::revoke_privileges` (user_grant.rs:276-299): map
the XOR step over all entries, then drop every entry whose privilege set
became empty.  The `UserGrantSet` vector is embedded as the entry list. -/
def revoke_privileges (grants : List GrantEntry) (user host_pattern : String)
    (object : GrantObject) (privileges : Nat) : List GrantEntry :=
  (grants.map (revokeStep user host_pattern object privileges)).filter
    (fun e => e.privileges != 0)

/-- Modelled from the spec: the nested structured `DataValue` shapes in which
the partial-aggregation transform serializes accumulators (UInt64 scalars and
Struct vectors, as printed by the test's expected output).  The transform's
implementation (`AggregatorPartialTransform` and the aggregate-function
states) is not part of the source fragment; only its test is. -/
inductive AggValue where
  | u64 : Nat → AggValue
  | struct : List AggValue → AggValue

/-- Modelled from the spec: the aggregate-expression shapes exercised by the
partial-aggregation test — `sum(number)`, `avg(number)`, and an aggregate
wrapped in arithmetic with a literal (`plus(sum(number), 2)`). -/
inductive AggExpr where
  | sumCol : AggExpr
  | avgCol : AggExpr
  | addLit : AggExpr → Nat → AggExpr

/-- The UInt64 wraparound modulus: accumulation follows the scalar type's
defined wraparound semantics (spec §4.4). -/
def M64 : Nat := 2 ^ 64

/-- Modelled from the spec (§3, §4.4): the accumulator state per expression —
`sum` keeps a running sum, `avg` keeps a running (sum, count) pair, and an
arithmetic wrapper keeps exactly the state of the wrapped aggregate (the
deferred literal is not part of the accumulated state). -/
abbrev StateTy : AggExpr → Type
  | .sumCol => Nat
  | .avgCol => Nat × Nat
  | .addLit inner _ => StateTy inner

/-- Modelled from the spec: initial accumulator values (zero sum, zero
count). -/
def initState : (e : AggExpr) → StateTy e
  | .sumCol => 0
  | .avgCol => (0, 0)
  | .addLit inner _ => initState inner

/-- Modelled from the spec (§4.4 step 2): the incremental-update rule — `sum`
adds the row value, `avg` adds to the sum and bumps the count, and an
arithmetic wrapper updates the wrapped aggregate's state, never folding the
arithmetic into it.  UInt64 arithmetic wraps at `M64`. -/
def updateState : (e : AggExpr) → StateTy e → Nat → StateTy e
  | .sumCol, s, v => (s + v) % M64
  | .avgCol, s, v => ((s.1 + v) % M64, (s.2 + 1) % M64)
  | .addLit inner _, s, v => updateState inner s v

/-- Modelled from the spec (§4.5): the lossless combine rule for two partial
accumulators of the same expression — sums add, (sum, count) pairs add
componentwise, and an arithmetic wrapper combines the wrapped states. -/
def combineState : (e : AggExpr) → StateTy e → StateTy e → StateTy e
  | .sumCol, a, b => (a + b) % M64
  | .avgCol, a, b => ((a.1 + b.1) % M64, (a.2 + b.2) % M64)
  | .addLit inner _, a, b => combineState inner a b

/-- Modelled from the spec/test: the raw structured value of an accumulator —
a UInt64 for `sum`, a Struct of (sum, count) for `avg`. -/
def rawValue : (e : AggExpr) → StateTy e → AggValue
  | .sumCol, s => .u64 s
  | .avgCol, s => .struct [.u64 s.1, .u64 s.2]
  | .addLit inner _, s => rawValue inner s

/-- Modelled from the spec/test: the serialized cell for one expression in the
flushed batch — `avg(number)` serializes as `Struct[Struct[sum, count]]`, and
`plus(inner, lit)` serializes the wrapped aggregate's raw accumulator alongside
the deferred literal, `Struct[raw, lit]` (exactly the shapes the test's
expected output prints). -/
def serializeState : (e : AggExpr) → StateTy e → AggValue
  | .sumCol, s => .u64 s
  | .avgCol, s => .struct [rawValue .avgCol s]
  | .addLit inner c, s => .struct [rawValue inner s, .u64 c]

/-- Modelled from the spec (§4.4, no group-by): the partial-aggregation
transform consumes the whole input stream of batches (each batch a list of row
values of the aggregated column), accumulates every expression's state over
every row, and flushes exactly once at stream exhaustion, yielding a single
output batch with one cell per expression. -/
def transformAggregatorPartial (exprs : List AggExpr) (input : List (List Nat)) :
    List (List AggValue) :=
  let rows := input.flatten
  [exprs.map (fun e => serializeState e (rows.foldl (updateState e) (initState e)))]

/-- Helper: an enumeration call whose result is an empty group terminates the
partition iterator at that point (read.rs:57, the `is_empty` guard). -/
theorem enumeratePartitions_empty_group (ctx : QueryContext) (b i fuel : Nat)
    (h : ctx.try_get_partitions b i = .ok []) :
    enumeratePartitions ctx b fuel i = [] := by
  cases fuel with
  | zero => rfl
  | succ fuel => simp [enumeratePartitions, h]

/-- Helper: an enumeration call whose result is an error terminates the
partition iterator at that point (read.rs:56, the `Err(_) => None` arm). -/
theorem enumeratePartitions_error (ctx : QueryContext) (b i fuel : Nat)
    (h : ctx.try_get_partitions b i = .err) :
    enumeratePartitions ctx b fuel i = [] := by
  cases fuel with
  | zero => rfl
  | succ fuel => simp [enumeratePartitions, h]

/-- Helper: two catalogs that agree strictly before call index `i` and both
stop at `i` (by error or by an empty group) enumerate exactly the same
partitions, whatever either returns after `i`. -/
theorem enumeratePartitions_stop_congr (ctx₁ ctx₂ : QueryContext) (b i : Nat)
    (h₁ : ctx₁.try_get_partitions b i = .err ∨ ctx₁.try_get_partitions b i = .ok [])
    (h₂ : ctx₂.try_get_partitions b i = .err ∨ ctx₂.try_get_partitions b i = .ok []) :
    ∀ fuel k, k ≤ i →
      (∀ j, k ≤ j → j < i → ctx₁.try_get_partitions b j = ctx₂.try_get_partitions b j) →
      enumeratePartitions ctx₁ b fuel k = enumeratePartitions ctx₂ b fuel k := by
  intro fuel
  induction fuel with
  | zero => intro k _ _; rfl
  | succ fuel ih =>
    intro k hk hagree
    rcases Nat.lt_or_ge k i with hlt | hge
    · have hkk := hagree k (Nat.le_refl k) hlt
      simp only [enumeratePartitions, ← hkk]
      cases hck : ctx₁.try_get_partitions b k with
      | err => rfl
      | ok parts =>
        cases parts with
        | nil => rfl
        | cons p ps =>
          have := ih (k + 1) hlt (fun j hj hji => hagree j (Nat.le_of_succ_le hj) hji)
          rw [this]
    · have hki : k = i := Nat.le_antisymm hk hge
      subst hki
      rcases h₁ with h₁ | h₁ <;> rcases h₂ with h₂ | h₂ <;>
        simp [enumeratePartitions, h₁, h₂]

/-- Helper: `try_collect` on a stream whose elements are all valid blocks up to
a first error element returns exactly that error, whatever follows it. -/
theorem tryCollect_first_error (e : ErrorCode) :
    ∀ (before after : List (Except ErrorCode DataBlock)),
      (∀ x ∈ before, ∃ b, x = Except.ok b) →
      tryCollect (before ++ Except.error e :: after) = .error e := by
  intro before
  induction before with
  | nil => intro after _; rfl
  | cons x t ih =>
    intro after h
    obtain ⟨b, hb⟩ := h x (List.mem_cons_self x t)
    subst hb
    have := ih after (fun y hy => h y (List.mem_cons_of_mem _ hy))
    simp [tryCollect, this, Except.map]

end Databend

namespace Databend

/-- C1 counterexample: with two schema fields and a push-down whose projection
is present but empty (`Some(Extras \x7b projection: Some(vec![]), .. \x7d)`),
`do_read` uses the empty projection as given — not the full index sequence
`[0, 1]` that the claim requires for an "empty-but-present" projection. -/
theorem c1_empty_projection_not_defaulted :
    (do_read { schema_fields := ["a", "b"] }
        { settings := { parallel_read_threads := 1, storage_read_buffer_size := 1 }
          try_get_partitions := fun _ _ => .ok []
          decodePart := fun _ => .error (.other "")
          readSource := fun _ => .ok none }
        (some { projection := some [] }) 0).projection
      ≠ List.range 2 := by
  decide

/-- C1 (amended): when the push-down projection is truly not specified — no
push-down descriptor at all, or a descriptor whose projection field is absent —
`do_read` materializes all fields: the projection equals the full index
sequence `0..fields.len()`.  An empty-but-present projection, by contrast, is
passed through unchanged (see the counterexample). -/
theorem c1_absent_projection_defaults_to_all_fields
    (table : FuseTable) (ctx : QueryContext) (fuel : Nat) :
    (do_read table ctx none fuel).projection
        = List.range table.schema_fields.length
      ∧ (do_read table ctx (some { projection := none }) fuel).projection
        = List.range table.schema_fields.length := by
  constructor <;> rfl

/-- C2: if the catalog call at index `i` returns an error, `do_read` behaves
exactly as if the catalog were exhausted at that call: the whole scan output
(partitions and stream) coincides with the one for a catalog that reports
end-of-data at `i`, no error from the catalog is surfaced on the output stream,
and nothing the catalog would answer after call `i` is ever requested (both
catalogs are unconstrained there). -/
theorem c2_catalog_error_treated_as_exhaustion
    (table : FuseTable) (push_downs : Option Extras) (settings : Settings)
    (decodePart : String → Except ErrorCode PartInfo)
    (readSource : PartInfo → Except String (Option DataBlock))
    (cat₁ cat₂ : Nat → Nat → CatalogResult) (i fuel : Nat)
    (hagree : ∀ b j, j < i → cat₁ b j = cat₂ b j)
    (herr : ∀ b, cat₁ b i = .err)
    (hexh : ∀ b, cat₂ b i = .ok []) :
    do_read table ⟨settings, cat₁, decodePart, readSource⟩ push_downs fuel
      = do_read table ⟨settings, cat₂, decodePart, readSource⟩ push_downs fuel := by
  have hparts :
      enumeratePartitions ⟨settings, cat₁, decodePart, readSource⟩
          settings.parallel_read_threads fuel 0
        = enumeratePartitions ⟨settings, cat₂, decodePart, readSource⟩
            settings.parallel_read_threads fuel 0 :=
    enumeratePartitions_stop_congr _ _ settings.parallel_read_threads i
      (Or.inl (herr _)) (Or.inr (hexh _)) fuel 0 (Nat.zero_le i)
      (fun j _ hj => hagree _ j hj)
  have hproc : processPart ⟨settings, cat₁, decodePart, readSource⟩
      = processPart ⟨settings, cat₂, decodePart, readSource⟩ := by
    funext part
    rfl
  simp only [do_read, hparts, hproc]

/-- C2 witness: a catalog erring on its very first call gives the same scan
output as a catalog exhausted on its very first call. -/
theorem c2_catalog_error_treated_as_exhaustion_witness :
    do_read { schema_fields := ["a"] }
        ⟨{ parallel_read_threads := 1, storage_read_buffer_size := 1 },
          fun _ _ => .err, fun _ => .error (.other ""), fun _ => .ok none⟩ none 3
      = do_read { schema_fields := ["a"] }
          ⟨{ parallel_read_threads := 1, storage_read_buffer_size := 1 },
            fun _ _ => .ok [], fun _ => .error (.other ""), fun _ => .ok none⟩ none 3 :=
  c2_catalog_error_treated_as_exhaustion { schema_fields := ["a"] } none
    { parallel_read_threads := 1, storage_read_buffer_size := 1 }
    (fun _ => .error (.other "")) (fun _ => .ok none)
    (fun _ _ => .err) (fun _ _ => .ok []) 0 3
    (fun _ j hj => absurd hj (Nat.not_lt_zero j))
    (fun _ => rfl) (fun _ => rfl)

/-- C3: when the reader produces no block for a partition ("absent"), the
scanner yields the typed decode error `ParquetError("reader returns None for
block loc")` naming that partition's location, and never an `ok` element — an
absent decode result is not passed downstream as an empty-but-valid block. -/
theorem c3_absent_decode_result_is_error
    (ctx : QueryContext) (part : Part) (info : PartInfo)
    (hdec : ctx.decodePart part.name = .ok info)
    (habs : ctx.readSource info = .ok none) :
    processPart ctx part
        = .error (.parquetError ("reader returns None for block " ++ info.location))
      ∧ ∀ b, processPart ctx part ≠ .ok b := by
  have h : processPart ctx part
      = .error (.parquetError ("reader returns None for block " ++ info.location)) := by
    simp [processPart, hdec, habs]
  exact ⟨h, fun b hb => by rw [h] at hb; exact Except.noConfusion hb⟩

/-- C3 witness: a concrete context whose reader answers "absent". -/
theorem c3_absent_decode_result_is_error_witness :
    processPart
        ⟨{ parallel_read_threads := 1, storage_read_buffer_size := 1 },
          fun _ _ => .ok [], fun _ => .ok { location := "loc0", length := 7 },
          fun _ => .ok none⟩ { name := "p0" }
      = .error (.parquetError ("reader returns None for block " ++ "loc0")) :=
  (c3_absent_decode_result_is_error _ { name := "p0" }
      { location := "loc0", length := 7 } rfl rfl).1

/-- C4: when the fetch+decode of one partition fails (read error or absent
block), the element emitted for that partition is a typed `ParquetError` whose
message contains the partition's location, and a consumer that has received
only valid blocks so far gets exactly that error from `try_collect`, whatever
elements would have followed: no batch after the error element is ever
delivered by that branch. -/
theorem c4_failed_partition_error_tags_location_and_terminates
    (ctx : QueryContext) (part : Part) (info : PartInfo) (emsg : String)
    (hdec : ctx.decodePart part.name = .ok info)
    (hfail : ctx.readSource info = .error emsg ∨ ctx.readSource info = .ok none) :
    ∃ pre post,
      processPart ctx part = .error (.parquetError (pre ++ info.location ++ post))
        ∧ ∀ (before after : List (Except ErrorCode DataBlock)),
            (∀ x ∈ before, ∃ b, x = Except.ok b) →
            tryCollect (before ++ processPart ctx part :: after)
              = .error (.parquetError (pre ++ info.location ++ post)) := by
  rcases hfail with hfail | hfail
  · refine ⟨"fail to read block ", ", " ++ emsg, ?_, ?_⟩
    · simp [processPart, hdec, hfail, String.append_assoc]
    · intro before after hok
      have h : processPart ctx part
          = .error (.parquetError ("fail to read block " ++ info.location ++ (", " ++ emsg))) := by
        simp [processPart, hdec, hfail, String.append_assoc]
      rw [h]
      exact tryCollect_first_error _ before after hok
  · refine ⟨"reader returns None for block ", "", ?_, ?_⟩
    · simp [processPart, hdec, hfail]
    · intro before after hok
      have h : processPart ctx part
          = .error (.parquetError ("reader returns None for block " ++ info.location ++ "")) := by
        simp [processPart, hdec, hfail]
      rw [h]
      exact tryCollect_first_error _ before after hok

/-- C4 witness: a concrete failing fetch, with arbitrary valid prefix and
arbitrary pending elements after the failure. -/
theorem c4_failed_partition_error_tags_location_and_terminates_witness :
    ∃ pre post,
      processPart
          ⟨{ parallel_read_threads := 1, storage_read_buffer_size := 1 },
            fun _ _ => .ok [], fun _ => .ok { location := "locA", length := 3 },
            fun _ => .error "io"⟩ { name := "pA" }
        = .error (.parquetError (pre ++ "locA" ++ post))
      ∧ ∀ (before after : List (Except ErrorCode DataBlock)),
          (∀ x ∈ before, ∃ b, x = Except.ok b) →
          tryCollect (before ++ processPart
              ⟨{ parallel_read_threads := 1, storage_read_buffer_size := 1 },
                fun _ _ => .ok [], fun _ => .ok { location := "locA", length := 3 },
                fun _ => .error "io"⟩ { name := "pA" } :: after)
            = .error (.parquetError (pre ++ "locA" ++ post)) :=
  c4_failed_partition_error_tags_location_and_terminates _ { name := "pA" }
    { location := "locA", length := 3 } "io" rfl (Or.inl rfl)

/-- C7: a catalog answering the very first request with an empty group makes
`do_read` return an empty scan: no partitions, an empty output stream, and a
successful (non-error) collection; moreover any catalog call returning an
empty group terminates the enumeration at that point, as normal exhaustion. -/
theorem c7_empty_partition_set_is_success
    (table : FuseTable) (ctx : QueryContext) (push_downs : Option Extras) (fuel : Nat)
    (h : ctx.try_get_partitions ctx.settings.parallel_read_threads 0 = .ok []) :
    (do_read table ctx push_downs fuel).parts = []
      ∧ (do_read table ctx push_downs fuel).stream = []
      ∧ tryCollect (do_read table ctx push_downs fuel).stream = .ok []
      ∧ ∀ b i f, ctx.try_get_partitions b i = .ok [] →
          enumeratePartitions ctx b f i = [] := by
  have hp : (do_read table ctx push_downs fuel).parts = [] := by
    simp [do_read, enumeratePartitions_empty_group ctx _ 0 fuel h]
  have hs : (do_read table ctx push_downs fuel).stream = [] := by
    simp [do_read, enumeratePartitions_empty_group ctx _ 0 fuel h]
  exact ⟨hp, hs, by rw [hs]; rfl,
    fun b i f hb => enumeratePartitions_empty_group ctx b i f hb⟩

/-- C7 witness: a concrete always-empty catalog yields the empty, successful
stream. -/
theorem c7_empty_partition_set_is_success_witness :
    tryCollect (do_read { schema_fields := ["a", "b"] }
        ⟨{ parallel_read_threads := 4, storage_read_buffer_size := 1 },
          fun _ _ => .ok [], fun _ => .error (.other ""), fun _ => .ok none⟩
        none 5).stream = .ok [] :=
  (c7_empty_partition_set_is_success { schema_fields := ["a", "b"] }
      ⟨{ parallel_read_threads := 4, storage_read_buffer_size := 1 },
        fun _ _ => .ok [], fun _ => .error (.other ""), fun _ => .ok none⟩
      none 5 rfl).2.2.1

/-- C9: `do_read` reads `parallel_read_threads` once into `bite_size` and uses
that single value both as the batch size of every `try_get_partitions` request
and as the `buffer_unordered` concurrency bound: the two are always equal. -/
theorem c9_request_size_equals_concurrency
    (table : FuseTable) (ctx : QueryContext) (push_downs : Option Extras) (fuel : Nat) :
    (do_read table ctx push_downs fuel).request_size
        = ctx.settings.parallel_read_threads
      ∧ (do_read table ctx push_downs fuel).concurrency
        = ctx.settings.parallel_read_threads :=
  ⟨rfl, rfl⟩

/-- C10: `revoke_privileges` keeps, for each original entry, the XOR-updated
entry when it matches (dropped when the XOR empties its privileges), and the
unchanged entry otherwise (dropped when its privileges were already empty);
the XOR update replaces a matching entry's privileges with the symmetric
difference, so a revoked privilege the entry does not hold is added to it;
non-matching entries are never modified. -/
theorem c10_revoke_privileges_xor_then_drop_empty
    (grants : List GrantEntry) (user host_pattern : String) (object : GrantObject)
    (privileges : Nat) :
    revoke_privileges grants user host_pattern object privileges
        = grants.filterMap (fun x =>
            let e := revokeStep user host_pattern object privileges x
            if e.privileges = 0 then none else some e)
      ∧ (∀ e : GrantEntry, e.matches_entry user host_pattern object = true →
          (revokeStep user host_pattern object privileges e).privileges
            = e.privileges ^^^ privileges)
      ∧ (∀ e : GrantEntry, e.matches_entry user host_pattern object = true →
          ∀ i, e.privileges.testBit i = false → privileges.testBit i = true →
            (revokeStep user host_pattern object privileges e).privileges.testBit i
              = true)
      ∧ (∀ e : GrantEntry, e.matches_entry user host_pattern object = false →
          revokeStep user host_pattern object privileges e = e) := by
  refine ⟨?_, ?_, ?_, ?_⟩
  · unfold revoke_privileges
    induction grants with
    | nil => rfl
    | cons x t ih =>
      by_cases h : (revokeStep user host_pattern object privileges x).privileges = 0 <;>
        simp [List.filterMap_cons, h, ih]
  · intro e he
    simp [revokeStep, he]
  · intro e he i hnot hrev
    simp [revokeStep, he, Nat.testBit_xor, hnot, hrev]
  · intro e he
    simp [revokeStep, he]

/-- C10 witness: for the single entry `('u','%',Global)` holding bits
`\x7b0,1\x7d` (privileges `3`), revoking bits `\x7b0,2\x7d` (privileges `5`)
keeps the entry with privileges `3 ^^^ 5 = 6`: bit `0` is removed, and bit `2`
— which the entry did not hold — is added. -/
theorem c10_revoke_privileges_xor_then_drop_empty_witness :
    revoke_privileges [⟨"u", "%", .global, 3⟩] "u" "%" .global 5
        = [⟨"u", "%", .global, 6⟩]
      ∧ (revokeStep "u" "%" .global 5 ⟨"u", "%", .global, 3⟩).privileges.testBit 2
        = true :=
  ⟨by decide,
    (c10_revoke_privileges_xor_then_drop_empty [⟨"u", "%", .global, 3⟩]
        "u" "%" .global 5).2.2.1
      ⟨"u", "%", .global, 3⟩ (by decide) 2 (by decide) (by decide)⟩

/-- Helper: the wraparound modulus is positive. -/
theorem M64_pos : 0 < M64 := by norm_num [M64]

/-- Helper: folding the `sum` update over a row list starting below the
modulus accumulates the wrapped running sum. -/
theorem foldl_updateState_sum (l : List Nat) :
    ∀ s : Nat, s < M64 → l.foldl (updateState .sumCol) s = (s + l.sum) % M64 := by
  induction l with
  | nil =>
    intro s hs
    simp [Nat.mod_eq_of_lt hs]
  | cons v t ih =>
    intro s hs
    have h1 : updateState .sumCol s v = (s + v) % M64 := rfl
    simp only [List.foldl_cons, h1]
    rw [ih _ (Nat.mod_lt _ M64_pos), Nat.mod_add_mod, List.sum_cons]
    congr 1
    omega

/-- Helper: folding the `avg` update over a row list accumulates the wrapped
running (sum, count) pair. -/
theorem foldl_updateState_avg (l : List Nat) :
    ∀ s c : Nat, s < M64 → c < M64 →
      l.foldl (updateState .avgCol) (s, c)
        = ((s + l.sum) % M64, (c + l.length) % M64) := by
  induction l with
  | nil =>
    intro s c hs hc
    simp [Nat.mod_eq_of_lt hs, Nat.mod_eq_of_lt hc]
  | cons v t ih =>
    intro s c hs hc
    have h1 : updateState .avgCol (s, c) v = ((s + v) % M64, (c + 1) % M64) := rfl
    simp only [List.foldl_cons, h1]
    rw [ih _ _ (Nat.mod_lt _ M64_pos) (Nat.mod_lt _ M64_pos)]
    simp only [Nat.mod_add_mod, List.sum_cons, List.length_cons]
    refine congrArg₂ Prod.mk ?_ ?_ <;> (congr 1; omega)

/-- Helper: an arithmetic wrapper accumulates exactly as the wrapped
aggregate does. -/
theorem foldl_updateState_addLit (inner : AggExpr) (c : Nat) (l : List Nat) :
    ∀ s : StateTy inner,
      l.foldl (updateState (.addLit inner c)) s = l.foldl (updateState inner) s := by
  induction l with
  | nil => intro s; rfl
  | cons v t ih =>
    intro s
    simp only [List.foldl_cons]
    exact ih (updateState inner s v)

/-- Helper: twice the sum of `0..n-1` is `n * (n-1)` (Gauss). -/
theorem list_range_sum_mul_two (n : Nat) : (List.range n).sum * 2 = n * (n - 1) := by
  induction n with
  | zero => rfl
  | succ k ih =>
    rw [List.range_succ, List.sum_append]
    simp only [List.sum_cons, List.sum_nil, Nat.add_zero]
    cases k with
    | zero => simp
    | succ j =>
      simp only [Nat.add_sub_cancel] at ih ⊢
      nlinarith [ih]

/-- Helper: the reference sum of the test input `0..199999`. -/
theorem list_range_200000_sum : (List.range 200000).sum = 19999900000 := by
  have h := list_range_sum_mul_two 200000
  omega

/-- Helper: the general shape of the partial batch for an arithmetic-wrapped
sum: the raw wrapped accumulator next to the deferred literal. -/
theorem transform_addLit_sum (c : Nat) (input : List (List Nat)) :
    transformAggregatorPartial [.addLit .sumCol c] input
      = [[.struct [.u64 (input.flatten.sum % M64), .u64 c]]] := by
  simp only [transformAggregatorPartial, List.map_cons, List.map_nil]
  rw [show initState (.addLit .sumCol c) = initState .sumCol from rfl]
  rw [foldl_updateState_addLit .sumCol c input.flatten (initState .sumCol)]
  rw [show initState .sumCol = (0 : Nat) from rfl]
  rw [foldl_updateState_sum input.flatten 0 M64_pos]
  simp [serializeState, rawValue]

/-- C5: on the test input of 200,000 rows valued `0..199999` with the test's
expression list `plus(sum(number), 2), avg(number)`, the transform flushes
exactly one output batch, and its avg cell is the nested (sum, count) pair
`(19999900000, 200000)`. -/
theorem c5_avg_accumulator_is_sum_count_pair :
    transformAggregatorPartial [.addLit .sumCol 2, .avgCol] [List.range 200000]
        = [[.struct [.u64 19999900000, .u64 2],
            .struct [.struct [.u64 19999900000, .u64 200000]]]]
      ∧ (transformAggregatorPartial [.addLit .sumCol 2, .avgCol]
            [List.range 200000]).length = 1 := by
  have hsum := list_range_200000_sum
  refine ⟨?_, rfl⟩
  simp only [transformAggregatorPartial, List.map_cons, List.map_nil,
    List.flatten_cons, List.flatten_nil, List.append_nil]
  rw [show initState (.addLit .sumCol 2) = initState .sumCol from rfl]
  rw [foldl_updateState_addLit .sumCol 2 (List.range 200000) (initState .sumCol)]
  rw [show initState .sumCol = (0 : Nat) from rfl]
  rw [foldl_updateState_sum (List.range 200000) 0 M64_pos]
  rw [show initState .avgCol = ((0, 0) : Nat × Nat) from rfl]
  rw [foldl_updateState_avg (List.range 200000) 0 0 M64_pos M64_pos]
  rw [hsum, List.length_range]
  norm_num [M64, serializeState, rawValue]

/-- C6: an aggregate wrapped in arithmetic keeps the wrapped aggregate's raw
accumulator and the literal as separate cells of the serialized partial state,
for every input; in particular the partial for `sum(number) + 2` over
`0..199999` holds `19999900000` and `2` separately, and is not the folded
value `19999900002`. -/
theorem c6_arithmetic_wrapper_deferred_not_folded :
    (∀ (input : List (List Nat)) (c : Nat),
        transformAggregatorPartial [.addLit .sumCol c] input
          = [[.struct [.u64 (input.flatten.sum % M64), .u64 c]]])
      ∧ transformAggregatorPartial [.addLit .sumCol 2] [List.range 200000]
          = [[.struct [.u64 19999900000, .u64 2]]]
      ∧ transformAggregatorPartial [.addLit .sumCol 2] [List.range 200000]
          ≠ [[.struct [.u64 19999900002]]] := by
  have hgen : ∀ (input : List (List Nat)) (c : Nat),
      transformAggregatorPartial [.addLit .sumCol c] input
        = [[.struct [.u64 (input.flatten.sum % M64), .u64 c]]] :=
    fun input c => transform_addLit_sum c input
  have hmod : (19999900000 : Nat) % M64 = 19999900000 :=
    Nat.mod_eq_of_lt (by norm_num [M64])
  have hconc : transformAggregatorPartial [.addLit .sumCol 2] [List.range 200000]
      = [[.struct [.u64 19999900000, .u64 2]]] := by
    have h := transform_addLit_sum 2 [List.range 200000]
    rw [List.flatten_cons, List.flatten_nil, List.append_nil,
      list_range_200000_sum, hmod] at h
    exact h
  refine ⟨hgen, hconc, ?_⟩
  rw [hconc]
  simp

/-- Helper: commutativity of the combine rule. -/
theorem combineState_comm : ∀ (e : AggExpr) (a b : StateTy e),
    combineState e a b = combineState e b a
  | .sumCol, a, b => by simp [combineState, Nat.add_comm]
  | .avgCol, a, b => by simp [combineState, Nat.add_comm]
  | .addLit inner _, a, b => combineState_comm inner a b

/-- Helper: associativity of the combine rule (wraparound addition is
associative under the modulus). -/
theorem combineState_assoc : ∀ (e : AggExpr) (a b c : StateTy e),
    combineState e (combineState e a b) c = combineState e a (combineState e b c)
  | .sumCol, a, b, c => by
    simp only [combineState, Nat.mod_add_mod, Nat.add_mod_mod]
    congr 1
    omega
  | .avgCol, a, b, c => by
    simp only [combineState, Nat.mod_add_mod, Nat.add_mod_mod]
    refine congrArg₂ Prod.mk ?_ ?_ <;> (congr 1; omega)
  | .addLit inner _, a, b, c => combineState_assoc inner a b c

/-- Helper: right-commutativity of the combine rule, the law `foldl` needs to
be order-independent. -/
theorem combineState_right_comm (e : AggExpr) (z x y : StateTy e) :
    combineState e (combineState e z x) y = combineState e (combineState e z y) x := by
  rw [combineState_assoc e z x y, combineState_comm e x y, ← combineState_assoc e z y x]

/-- C8: the accumulator combine rule of every aggregate expression is
commutative and associative, and therefore folding any permutation of a set of
partial states — partitions completing in any order — yields the same final
accumulator value as folding them in enumeration order. -/
theorem c8_combine_rule_order_independent :
    (∀ (e : AggExpr) (a b : StateTy e), combineState e a b = combineState e b a)
      ∧ (∀ (e : AggExpr) (a b c : StateTy e),
          combineState e (combineState e a b) c
            = combineState e a (combineState e b c))
      ∧ (∀ (e : AggExpr) (init : StateTy e) (l₁ l₂ : List (StateTy e)),
          l₁.Perm l₂ →
            l₁.foldl (combineState e) init = l₂.foldl (combineState e) init) := by
  refine ⟨combineState_comm, combineState_assoc, ?_⟩
  intro e init l₁ l₂ hp
  exact hp.foldl_eq' (fun x _ y _ z => combineState_right_comm e z x y) init

/-- C8 witness: two avg partial states combined in either order give the same
accumulator. -/
theorem c8_combine_rule_order_independent_witness :
    ([((1, 2) : Nat × Nat), (3, 4)]).Perm [(3, 4), (1, 2)]
      ∧ List.foldl (combineState .avgCol) ((0, 0) : Nat × Nat) [(1, 2), (3, 4)]
        = List.foldl (combineState .avgCol) ((0, 0) : Nat × Nat) [(3, 4), (1, 2)] :=
  ⟨List.Perm.swap _ _ _,
    c8_combine_rule_order_independent.2.2 .avgCol (0, 0)
      [(1, 2), (3, 4)] [(3, 4), (1, 2)] (List.Perm.swap _ _ _)⟩

end Databend
